import Mathlib

set_option maxHeartbeats 1000000
set_option maxRecDepth 2000
set_option autoImplicit false

/-!
Shallow embedding of `pyrolite/geochem/transform.py` (the component
conversion/aggregation engine and the REE pattern fitter), together with the
external lookups it consumes, and proofs of the specification claims.

Modelling conventions:
* a cell value is `Option ℚ`: `none` stands for the floating NaN / non-finite
  marker, `some q` for a finite value (exact rationals stand in for floats,
  so "within floating tolerance" statements are proved exactly);
* a dataframe is an ordered association list of named columns;
* fallible code returns `Except String`;
* the `logdata=True` code paths (which apply `np.exp`/`np.log`) are outside
  the rational model and every claim below is about the default
  `logdata=False` path, which is what is embedded;
* in-place mutation of the caller-visible input frame (pandas `df[col] = ...`)
  is modelled by explicit state passing: each operation returns a pair
  `(returned frame, state of the caller's input frame after the call)`.
-/

deriving instance DecidableEq for Except

namespace Pyrolite

/-- A cell of a dataframe: `none` models NaN / non-finite entries. -/
abbrev Val := Option ℚ

/-- A dataframe: an ordered list of named columns of cells. -/
abbrev Df := List (String × List Val)

/-- The column names of a frame, in order. -/
def colNames (df : Df) : List String := df.map (·.1)

/-- Whether a column of the given name is present (`name in df.columns`). -/
def hasCol (df : Df) (n : String) : Bool := df.any (fun c => c.1 == n)

/-- The data of the first column of the given name, if present. -/
def col? (df : Df) (n : String) : Option (List Val) :=
  (df.find? (fun c => c.1 == n)).map (·.2)

/-- Number of rows (length of the first column; pandas frames are rectangular). -/
def nrows : Df → ℕ
  | [] => 0
  | c :: _ => c.2.length

/-- The cell at column `n`, row `i` (NaN when out of range / missing). -/
def getVal (df : Df) (n : String) (i : ℕ) : Val := ((col? df n).getD []).getD i none

/-- Replace every column named `n` by the new data, in place. -/
def replaceCol (n : String) (xs : List Val) : Df → Df
  | [] => []
  | c :: rest =>
    if c.1 == n then (n, xs) :: replaceCol n xs rest
    else c :: replaceCol n xs rest

/-- `df[n] = xs`: overwrite the column in place if present, else append it at
the end — pandas column-assignment semantics. -/
def setCol (df : Df) (n : String) (xs : List Val) : Df :=
  if hasCol df n then replaceCol n xs df
  else df ++ [(n, xs)]

/-- `df.drop(columns=ns)`. -/
def dropCols (df : Df) (ns : List String) : Df :=
  df.filter (fun c => !(ns.contains c.1))

/-- Assign several columns in sequence (`df[targetnames] = values`). -/
def setCols (df : Df) (ns : List String) (vs : List (List Val)) : Df :=
  (ns.zip vs).foldl (fun d p => setCol d p.1 p.2) df

/-- The zero-fix of `elemental_sum` line 228: a non-finite (NaN) or negative
converted value is replaced by `0.0`, so it contributes nothing to row sums. -/
def zfix : Val → ℚ
  | none => 0
  | some q => if q < 0 then 0 else q

/-- NaN-propagating addition of two cells. -/
def vadd : Val → Val → Val
  | some x, some y => some (x + y)
  | _, _ => none

/-- Row-wise ratio with the non-finite guard of `add_ratio` line 448: a NaN
operand, or a zero denominator (an IEEE infinity / NaN), yields NaN. -/
def vdivFin : Val → Val → Val
  | some x, some y => if y = 0 then none else some (x / y)
  | _, _ => none

/-- Whether `pat` occurs as a substring of `s` (Python `pat in s`). -/
def strContains (s pat : String) : Bool := (s.splitOn pat).length != 1

/-- `remove_suffix` from `pyrolite.util.text`. Modelled from the spec: strips
the given suffix from the end of the string when present (the total-suffix
marker of §3 / glossary). -/
def remove_suffix (s suffix : String) : String :=
  if s.endsWith suffix then s.dropRight suffix.length else s

/-- An atomic composition together with a molecular weight, as produced by the
external Formula/Mass Resolver (`periodictable.formula`, spec §6). -/
structure Formula where
  atoms : List (String × ℕ)
  mass : ℚ

/-- The external lookups of spec §6 consumed by the transform module. -/
structure ChemEnv where
  /-- `resolve(name)` of the Formula/Mass Resolver; `none` is a parse error. -/
  formula : String → Option Formula
  /-- `simple_oxides(cation)` of `pyrolite.geochem.ind`. Modelled from the
  spec: enumerates every simple-oxide form of the cation. -/
  simple_oxides : String → List String
  /-- Membership in `__common_oxides__ | __common_elements__` (the Component
  Classifier of spec §6). -/
  isCompositional : String → Bool
  /-- `titlecase` of `pyrolite.util.text`. Modelled from the spec: restores
  the canonical capitalization of a component name. -/
  titlecase : String → String

/-- The non-oxygen atoms of a formula (`transform.py` lines 133-136). -/
def nonO (f : Formula) : List (String × ℕ) := f.atoms.filter (fun p => !(p.1 == "O"))

/-- `oxide_conversion(oxin, oxout, molecular)` (`transform.py` lines 109-157),
returning the scalar factor of the generated `convert_series` closure (which
multiplies a series elementwise by this factor).  Fails unless both forms
resolve and have exactly one, identical, non-oxygen element. -/
def oxide_conversion (env : ChemEnv) (oxin oxout : String) (molecular : Bool) :
    Except String ℚ :=
  match env.formula oxin, env.formula oxout with
  | some fi, some fo =>
    match nonO fi, nonO fo with
    | [(ei, a)], [(eo, b)] =>
      if ei = eo then
        let cc : ℚ := (a : ℚ) / (b : ℚ)
        .ok (if molecular then cc else cc * fo.mass / fi.mass)
      else .error "Incompatible compounds"
    | _, _ => .error "Incompatible compounds"
  | _, _ => .error "Incompatible compounds"

/-- `get_cations` of `pyrolite.geochem.ind`. Modelled from the spec (§3
"Cation"): strip any total suffix, resolve the component, and return its
non-oxygen elements; a parse failure yields no cations. -/
def get_cations (env : ChemEnv) (component total_suffix : String) : List String :=
  match env.formula (remove_suffix component total_suffix) with
  | some f => (nonO f).map (·.1)
  | none => []

/-- The `component` argument of `elemental_sum`: a single name, or the
members of a list/dict (whose keys must all share one cation). -/
inductive EsComponent where
  | one (s : String)
  | many (ss : List String)

/-- The comprehension `[get_cations(t)[0] for t in component]` of
`elemental_sum` line 192, failing on the first member with no cation. -/
def mapCations (env : ChemEnv) (ts : String) : List String → Except String (List String)
  | [] => .ok []
  | t :: rest =>
    match (get_cations env t ts).head? with
    | none => .error "no cation"
    | some c =>
      match mapCations env ts rest with
      | .error e => .error e
      | .ok cs => .ok (c :: cs)

/-- Cation resolution of `elemental_sum` lines 190-196: a single component's
first cation, or the common cation of a collection (error on mismatch or on a
member with no cation). -/
def comp_cation (env : ChemEnv) (c : EsComponent) (total_suffix : String) :
    Except String String :=
  match c with
  | .one s =>
    match (get_cations env s total_suffix).head? with
    | some c => .ok c
    | none => .error "no cation"
  | .many ss =>
    match mapCations env total_suffix ss with
    | .error e => .error e
    | .ok [] => .error "no cation"
    | .ok (c :: rest) =>
      if rest.all (fun x => x == c) then .ok c else .error "cation mismatch"

/-- `poss_specs` of `elemental_sum` lines 201-202: the cation itself, its
simple oxides, and the total-suffixed variant of each. -/
def poss_species (env : ChemEnv) (cation ts : String) : List String :=
  let ps := cation :: env.simple_oxides cation
  ps ++ ps.map (fun i => i ++ ts)

/-- The candidate species of `elemental_sum` line 203: the possible species
actually present as columns (the Python `set()` is modelled by `eraseDups`;
the iteration order only feeds commutative row sums). -/
def es_species (env : ChemEnv) (df : Df) (cation ts : String) : List String :=
  (poss_species env cation ts).eraseDups.filter (fun s => hasCol df s)

/-- The per-candidate conversion factors of `elemental_sum` lines 221-225
(the loop `subdf[s] = subdf[s].apply(oxide_conversion(form, cationname))`),
failing on the first incompatible candidate. -/
def mapFactors (env : ChemEnv) (cation ts : String) (molecular : Bool) :
    List String → Except String (List (String × ℚ))
  | [] => .ok []
  | s :: rest =>
    match oxide_conversion env (remove_suffix s ts) cation molecular with
    | .error e => .error e
    | .ok f =>
      match mapFactors env cation ts molecular rest with
      | .error e => .error e
      | .ok fs => .ok ((s, f) :: fs)

/-- The subsum of `elemental_sum` lines 204-230: all-NaN when no candidate
species is present; otherwise each candidate column is converted to metallic
equivalents, non-finite/negative cells are zeroed, rows summed, and
non-positive row sums masked to NaN. -/
def es_subsum (env : ChemEnv) (df : Df) (cation ts : String) (molecular : Bool) :
    Except String (List Val) :=
  if (es_species env df cation ts).isEmpty then
    .ok (List.replicate (nrows df) (none : Val))
  else
    match mapFactors env cation ts molecular (es_species env df cation ts) with
    | .error e => .error e
    | .ok facs =>
      .ok ((List.range (nrows df)).map (fun i =>
        if (facs.foldl
            (fun acc sf => acc + zfix ((getVal df sf.1 i).map (fun q => q * sf.2))) 0) ≤ 0
        then (none : Val)
        else some (facs.foldl
          (fun acc sf => acc + zfix ((getVal df sf.1 i).map (fun q => q * sf.2))) 0)))

/-- `elemental_sum(df, component, to, total_suffix, molecular)`
(`transform.py` lines 160-237, `logdata=False` path): resolve the cation, form
the subsum over present candidate species, and optionally recast the summed
series as `to`.  Returns the series name and data. -/
def elemental_sum (env : ChemEnv) (df : Df) (component : EsComponent)
    (tgt : Option String) (ts : String) (molecular : Bool) :
    Except String (String × List Val) :=
  match comp_cation env component ts with
  | .error e => .error e
  | .ok cation =>
    match es_subsum env df cation ts molecular with
    | .error e => .error e
    | .ok subsum =>
      match tgt with
      | none => .ok (cation, subsum)
      | some t =>
        match oxide_conversion env cation t molecular with
        | .error e => .error e
        | .ok f => .ok (t, subsum.map (fun v => v.map (fun q => q * f)))

/-- `close` of `pyrolite.comp.codata`. Modelled from the spec (§4.4):
proportions are renormalized to sum to one (closure). -/
def close (xs : List ℚ) : List ℚ := xs.map (fun x => x / xs.sum)

/-- Row total used by `renormalise` (pandas `sum` skips NaN). -/
def rowTotal (df : Df) (i : ℕ) : ℚ :=
  (df.map (fun c => ((c.2.getD i none).getD 0))).sum

/-- `renormalise` of `pyrolite.comp.codata`. Modelled from the spec (§4.1 and
glossary "Renormalization (closure)"): rescales each row of the frame it is
given so that the row's values sum to a constant (the library's default
closure constant 100); it operates on every column of the frame it receives
and returns a new frame.  `renormCol` rescales one column cell by cell. -/
def renormCol (df : Df) (i : ℕ) : List Val → List Val
  | [] => []
  | v :: rest => v.map (fun q => q * 100 / rowTotal df i) :: renormCol df (i + 1) rest

/-- `renormalise` of `pyrolite.comp.codata` applied to a whole frame. -/
def renormalise (df : Df) : Df :=
  df.map (fun c => (c.1, renormCol df 0 c.2))

/-- The `to` argument of `aggregate_element` / `convert_chemistry`: a single
component name (the `str` / formula-object branches) or a proportion mapping
(the `dict` branch). -/
inductive AggTarget where
  | str (s : String)
  | mix (l : List (String × ℚ))

/-- The `component` passed to `elemental_sum` by `aggregate_element` line 277
(a dict iterates as its keys). -/
def AggTarget.comp : AggTarget → EsComponent
  | .str s => .one s
  | .mix l => .many (l.map (·.1))

/-- The pre-existing simple-oxide(+total) columns for a cation
(`aggregate_element` lines 281-283). -/
def agg_species (env : ChemEnv) (df : Df) (cation ts : String) : List String :=
  ((env.simple_oxides cation) ++ (env.simple_oxides cation).map (fun i => i ++ ts)).filter
    (fun s => hasCol df s)

/-- The comprehension `[oxide_conversion(cation, t)(p) for t, p in zip(...)]`
of `aggregate_element` lines 301-304, failing on the first incompatible
target. -/
def mapCoeffs (env : ChemEnv) (cation : String) (molecular : Bool) :
    List (String × ℚ) → Except String (List ℚ)
  | [] => .ok []
  | tp :: rest =>
    match oxide_conversion env cation tp.1 molecular with
    | .error e => .error e
    | .ok f =>
      match mapCoeffs env cation molecular rest with
      | .error e => .error e
      | .ok cs => .ok (f * tp.2 :: cs)

/-- Target dispatch of `aggregate_element` lines 285-307: target names, the
per-target coefficients `oxide_conversion(cation, target)(proportion)`, and
the redundant source columns to drop. -/
def aggTargets (env : ChemEnv) (cation : String) (tgt : AggTarget) (ts : String)
    (molecular : Bool) (species : List String) :
    Except String (List String × List ℚ × List String) :=
  match tgt with
  | .str t =>
    let toform := remove_suffix t ts
    match oxide_conversion env cation toform molecular with
    | .error e => .error e
    | .ok f => .ok ([t], [f * 1], species.filter (fun i => !(i == t)))
  | .mix l =>
    let targetnames := l.map (·.1)
    let props := close (l.map (·.2))
    match mapCoeffs env cation molecular (targetnames.zip props) with
    | .error e => .error e
    | .ok coeffs =>
      .ok (targetnames, coeffs, species.filter (fun i => !(targetnames.contains i)))

/-- `aggregate_element(df, to, total_suffix, logdata=False, renorm, molecular)`
(`transform.py` lines 240-334): aggregate the cation, drop redundant source
columns, fan the aggregate out over the targets (outer product with the
coefficients), and optionally renormalise the whole frame.  Returns
`(returned frame, caller's input frame after the call)` — the source mutates
the caller's frame (`df[targetnames] = ...` line 330) exactly when `drop` is
empty, because `df = df.drop(columns=drop)` line 316 rebinds `df` to a copy
only when there is something to drop. -/
def aggregate_element (env : ChemEnv) (df : Df) (tgt : AggTarget) (ts : String)
    (renorm molecular : Bool) : Except String (Df × Df) :=
  match elemental_sum env df tgt.comp none ts molecular with
  | .error e => .error e
  | .ok (cation, subsum) =>
    match aggTargets env cation tgt ts molecular (agg_species env df cation ts) with
    | .error e => .error e
    | .ok (targetnames, coeffs, drop) =>
      let df2 := if drop.isEmpty then df else dropCols df drop
      let tvals := coeffs.map (fun cf => subsum.map (fun v => v.map (fun q => q * cf)))
      let ret := setCols df2 targetnames tvals
      let callerAfter := if drop.isEmpty then setCols df targetnames tvals else df
      if renorm then .ok (renormalise ret, callerAfter) else .ok (ret, callerAfter)

/-- `recalculate_Fe` (`transform.py` lines 337-383): `aggregate_element`
specialised to an iron target. -/
def recalculate_Fe (env : ChemEnv) (df : Df) (tgt : AggTarget) (ts : String)
    (renorm molecular : Bool) : Except String (Df × Df) :=
  aggregate_element env df tgt ts renorm molecular

/-- Per-column molecular-weight map with an operation `g` (division for
`to_molecular`, multiplication for `to_weight`); fails on the first column
whose name the resolver cannot parse (`pt.formula(c).mass`). -/
def mapColsMW (env : ChemEnv) (g : ℚ → ℚ → ℚ) : Df → Except String Df
  | [] => .ok []
  | c :: rest =>
    match env.formula c.1 with
    | none => .error "formula parse error"
    | some f =>
      match mapColsMW env g rest with
      | .error e => .error e
      | .ok out => .ok ((c.1, c.2.map (fun v => v.map (fun q => g q f.mass))) :: out)

/-- `to_molecular(df, renorm)` (`transform.py` lines 30-52): divide every
column by its molecular weight; optionally renormalise. -/
def to_molecular (env : ChemEnv) (df : Df) (renorm : Bool) : Except String Df :=
  match mapColsMW env (fun q m => q / m) df with
  | .error e => .error e
  | .ok out => .ok (if renorm then renormalise out else out)

/-- `to_weight(df, renorm)` (`transform.py` lines 55-77): multiply every
column by its molecular weight; optionally renormalise. -/
def to_weight (env : ChemEnv) (df : Df) (renorm : Bool) : Except String Df :=
  match mapColsMW env (fun q m => q * m) df with
  | .error e => .error e
  | .ok out => .ok (if renorm then renormalise out else out)

/-- The denominator name of `add_ratio` lines 423-427: an `_n`/`_N` suffix
requests normalisation and is stripped (lower-cased then re-titlecased). -/
def ar_den (env : ChemEnv) (den0 : String) : String :=
  if (den0.toLower).endsWith "_n" then env.titlecase ((den0.toLower).replace "_n" "")
  else den0

/-- The column name of the appended ratio (line 441): the alias when one is
given and non-empty, else the original ratio string. -/
def ar_name (rstr : String) (aliasName : Option String) : String :=
  match aliasName with
  | some a => if a = "" then rstr else a
  | none => rstr

/-- The reference values `num_n, den_n` resolved by `add_ratio` lines 424-439
when normalisation is requested (`_n` suffix or an explicit `norm_to`).  The
argument models `norm_to` given as an explicit two-element collection (the
`iscollection` branch, line 435); the string / `RefComp` / default branches
fetch the same two values from the external Reference Composition Store.
These resolved values are DEAD in the source: nothing after line 439 reads
`num_n` or `den_n`, so `add_ratio_fn` below never consults this function. -/
def ar_refvals (den0 : String) (norm_to : Option (ℚ × ℚ)) : Option (ℚ × ℚ) :=
  if (den0.toLower).endsWith "_n" || norm_to.isSome then norm_to else Option.none

/-- `add_ratio(df, ratio, alias, norm_to, molecular)` (`transform.py` lines
386-450): split the ratio string, aggregate numerator and denominator with
`elemental_sum`, divide row-wise masking non-finite results, and write the
column into the frame.  Although lines 429-439 resolve reference values
(`ar_refvals`) when normalisation is requested, the source never uses them —
the returned ratio column is always raw `numsum / densum`.  Line 449
`df[name] = ratio` writes into the caller's frame in place, so the returned
pair `(returned frame, caller frame after)` has equal components. -/
def add_ratio_fn (env : ChemEnv) (df : Df) (rstr : String) (aliasName : Option String)
    (norm_to : Option (ℚ × ℚ)) (molecular : Bool) : Except String (Df × Df) :=
  match rstr.splitOn "/" with
  | [num, den0] =>
    match elemental_sum env df (.one num) (some num) "T" molecular with
    | .error e => .error e
    | .ok (_, numsum) =>
      match elemental_sum env df (.one (ar_den env den0))
          (some (ar_den env den0)) "T" molecular with
      | .error e => .error e
      | .ok (_, densum) =>
        .ok (setCol df (ar_name rstr aliasName)
              ((List.range (nrows df)).map (fun i =>
                vdivFin (numsum.getD i none) (densum.getD i none))),
             setCol df (ar_name rstr aliasName)
              ((List.range (nrows df)).map (fun i =>
                vdivFin (numsum.getD i none) (densum.getD i none))))
  | _ => .error "ratio parse error"

/-- Molar Mg/(Mg+Fe) cell of `add_MgNo` line 499 (`mg.values/(mg.values +
fe.values)`); in the rational model a zero denominator follows the `x / 0 = 0`
convention (the claims below never evaluate it there). -/
def mgNoCell : Val → Val → Val
  | some x, some y => some (x / (x + y))
  | _, _ => none

/-- The iron series of `add_MgNo` lines 487-492 together with the state of
the caller's frame after it is computed: with `use_total_approx` the frame
returned by `aggregate_element` is consulted only for its `FeO` column, but
its in-place effect on the caller's frame persists; otherwise iron is
aggregated from the non-`Fe2O3`-named columns only and the frame is
untouched. -/
def mgno_fe (env : ChemEnv) (df : Df) (molecular use_total_approx : Bool)
    (f203 : ℚ) : Except String (List Val × Df) :=
  if use_total_approx then
    match aggregate_element env df
        (.mix [("FeO", 1 - f203), ("Fe2O3", f203)]) "T" false molecular with
    | .error e => .error e
    | .ok p =>
      match col? p.1 "FeO" with
      | some xs => .ok (xs, p.2)
      | none => .error "missing FeO"
  else
    match elemental_sum env (df.filter (fun c => !(strContains c.1 "Fe2O3")))
        (.one "Fe") none "T" molecular with
    | .error e => .error e
    | .ok fe => .ok (fe.2, df)

/-- The molar conversion of `add_MgNo` lines 493-497: unless the data is
already molecular, both single-column frames go through
`to_molecular(..., renorm=False)`. -/
def mgno_molar (env : ChemEnv) (molecular : Bool) (mg fe : List Val) :
    Except String (List Val × List Val) :=
  if molecular then .ok (mg, fe)
  else
    match to_molecular env [("Mg", mg)] false, to_molecular env [("Fe", fe)] false with
    | .ok mgf, .ok fef => .ok ((col? mgf "Mg").getD [], (col? fef "Fe").getD [])
    | .error e, _ => .error e
    | _, .error e => .error e

/-- `add_MgNo(df, molecular, use_total_approx, approx_Fe203_frac, name)`
(`transform.py` lines 453-504).  Line 501 `df[name] = mgnos` writes into the
caller's frame in place, so the result pair has equal components; under
`use_total_approx` the base frame is the caller's frame as left by
`aggregate_element`. -/
def add_MgNo (env : ChemEnv) (df : Df) (molecular use_total_approx : Bool)
    (f203 : ℚ) (name : String) : Except String (Df × Df) :=
  match elemental_sum env df (.one "Mg") none "T" molecular with
  | .error e => .error e
  | .ok mgp =>
    match mgno_fe env df molecular use_total_approx f203 with
    | .error e => .error e
    | .ok feb =>
      match mgno_molar env molecular mgp.2 feb.1 with
      | .error e => .error e
      | .ok mf =>
        .ok (setCol feb.2 name ((mf.1.zip mf.2).map (fun p => mgNoCell p.1 p.2)),
             setCol feb.2 name ((mf.1.zip mf.2).map (fun p => mgNoCell p.1 p.2)))

/-! ### REE pattern fitter -/

/-- A cell of the lambda output frame: the appended `lambda_poly_func` column
holds callables (`LCell.fn`) before the final numeric coercion. -/
inductive LCell where
  | num (q : ℚ)
  | nan
  | fn (f : ℚ → ℚ)

/-- The lambda output frame. -/
abbrev Lf := List (String × List LCell)

/-- A fitted value entering the lambda frame. -/
def valToL : Val → LCell
  | some q => .num q
  | none => .nan

/-- `pd.to_numeric(errors="coerce")` on one cell (line 620): numbers survive,
anything non-numeric — including a callable — becomes NaN. -/
def coerceNum : LCell → LCell
  | .num q => .num q
  | .nan => .nan
  | .fn _ => .nan

/-- The pandas comparison `cell == 0.0` (NaN and callables compare `False`). -/
def isZeroCell : LCell → Bool
  | .num q => q == 0
  | _ => false

/-- Whether a cell is the NaN marker. -/
def isNanCell : LCell → Bool
  | .nan => true
  | _ => false

/-- The fifteen rare-earth elements. Modelled from the spec: the REE index of
`pyrolite.geochem.ind` (outside `src/`), glossary "REE". -/
def REE_names : List String :=
  ["La", "Ce", "Pr", "Nd", "Pm", "Sm", "Eu", "Gd", "Tb", "Dy", "Ho", "Er",
   "Tm", "Yb", "Lu"]

/-- The REE columns selected by `lambda_lnREE` lines 562-569: present in the
frame, not excluded, and not entirely null across all rows. -/
def selected_REE (df : Df) (exclude : List String) : List String :=
  let non_null := (df.filter (fun c => !(c.2.all (fun v => v.isNone)))).map (·.1)
  REE_names.filter (fun e => hasCol df e && !(exclude.contains e) && non_null.contains e)

/-- The coefficient column labels `λ0..λ(degree-1)` (line 580). -/
def lambda_labels (degree : ℕ) : List String :=
  (List.range degree).map (fun d => "λ" ++ toString d)

/-- Cell lookup in a lambda frame. -/
def getLCell (lf : Lf) (n : String) (i : ℕ) : LCell :=
  (((lf.find? (fun c => c.1 == n)).map (·.2)).getD []).getD i LCell.nan

/-- The length assertion of the explicit-array normalisation branch
(`lambda_lnREE` line 593). -/
def ll_checkNorm (df : Df) (exclude : List String) (norm_to : Option (List ℚ)) :
    Except String Unit :=
  match norm_to with
  | some l =>
    if l.length = (selected_REE df exclude).length then .ok ()
    else .error "norm length mismatch"
  | none => .ok ()

/-- `null_in_row` (line 577): whether row `i` has a null among the selected
REE columns. -/
def ll_nullInRow (df : Df) (exclude : List String) (i : ℕ) : Bool :=
  (selected_REE df exclude).any (fun e => (getVal df e i).isNone)

/-- A row of `norm_df` after normalisation, the non-positive mask and the log
transform (lines 578, 595-598). -/
def ll_normRow (df : Df) (exclude : List String) (norm_to : Option (List ℚ))
    (ln : ℚ → ℚ) (i : ℕ) : List Val :=
  let row0 : List Val := (selected_REE df exclude).map (fun e => getVal df e i)
  let rowd : List Val := match norm_to with
    | some l => (row0.zip l).map (fun p => p.1.map (fun q => q / p.2))
    | none => row0
  let rowm := if rowd.any (fun v => match v with
      | some q => decide (q ≤ 0)
      | none => false)
    then rowd.map (fun _ => (none : Val)) else rowd
  rowm.map (fun v => Option.map ln v)

/-- `lambdadf` after the per-row fit assignment (lines 600-608): label columns
`λ0..` are NaN on null-masked rows and hold the fitted coefficients
elsewhere. -/
def ll_lam0 (df : Df) (exclude : List String) (degree : ℕ)
    (norm_to : Option (List ℚ)) (ln : ℚ → ℚ) (fitρ : List Val → List Val) : Lf :=
  (List.range degree).map (fun k =>
    ("λ" ++ toString k, (List.range (nrows df)).map (fun i =>
      if ll_nullInRow df exclude i then LCell.nan
      else valToL ((fitρ (ll_normRow df exclude norm_to ln i)).getD k none))))

/-- The all-zero-row mask `(lambdadf == 0.0).all(axis=1)` (line 609). -/
def ll_zeroRow (df : Df) (exclude : List String) (degree : ℕ)
    (norm_to : Option (List ℚ)) (ln : ℚ → ℚ) (fitρ : List Val → List Val)
    (i : ℕ) : Bool :=
  (ll_lam0 df exclude degree norm_to ln fitρ).all
    (fun c => isZeroCell (c.2.getD i LCell.nan))

/-- `lambdadf` after degenerate all-zero rows are nulled (line 609). -/
def ll_lam1 (df : Df) (exclude : List String) (degree : ℕ)
    (norm_to : Option (List ℚ)) (ln : ℚ → ℚ) (fitρ : List Val → List Val) : Lf :=
  (ll_lam0 df exclude degree norm_to ln fitρ).map (fun c =>
    (c.1, (List.range (nrows df)).map (fun i =>
      if ll_zeroRow df exclude degree norm_to ln fitρ i then LCell.nan
      else c.2.getD i LCell.nan)))

/-- `lambdadf` after the optional callable column is appended (lines
610-618). -/
def ll_lam2 (df : Df) (exclude : List String) (degree : ℕ)
    (norm_to : Option (List ℚ)) (ln : ℚ → ℚ) (fitρ : List Val → List Val)
    (appendFn : Bool) (lpfρ : List LCell → ℚ → ℚ) : Lf :=
  if appendFn then
    ll_lam1 df exclude degree norm_to ln fitρ
      ++ [("lambda_poly_func", (List.range (nrows df)).map (fun i =>
        LCell.fn (lpfρ ((ll_lam1 df exclude degree norm_to ln fitρ).map
          (fun c => c.2.getD i LCell.nan)))))]
  else ll_lam1 df exclude degree norm_to ln fitρ

/-- `lambda_lnREE(df, norm_to, exclude, params, degree, append, scale)`
(`transform.py` lines 507-622).  External numerics are taken as parameters:
`ln` is `np.log`; `fitρ` is the per-row least-squares routine
`pyrolite.util.math.lambdas` partially applied to the fixed radii/basis
(modelled from the spec §4.8: an external numerical routine producing the
coefficient row); `lpfρ` is `pyrolite.util.math.lambda_poly_func` likewise
partially applied (modelled from the spec: evaluates the fitted polynomial as
a smooth function of radius).  `norm_to` models the explicit-array branch
(`some l` = reference abundances, with the source's length assertion;
`none` = already-normalised data); the name/`RefComp` branches obtain the
same array from the external store.  Every theorem below holds for all such
parameter functions.  Returns `(lambda frame, caller frame after)` — the
input frame is only read (copies at lines 578, 600). -/
def lambda_lnREE (df : Df) (exclude : List String) (degree : ℕ)
    (norm_to : Option (List ℚ)) (ln : ℚ → ℚ) (fitρ : List Val → List Val)
    (appendFn : Bool) (lpfρ : List LCell → ℚ → ℚ) : Except String (Lf × Df) :=
  match ll_checkNorm df exclude norm_to with
  | .error e => .error e
  | .ok _ =>
    .ok ((ll_lam2 df exclude degree norm_to ln fitρ appendFn lpfρ).map
      (fun c => (c.1, c.2.map coerceNum)), df)

/-! ### Schema reconciler (`convert_chemistry`) -/

/-- The multi-component dictionaries of `to` (`convert_chemistry` lines
662-664). -/
def cc_coupled_sets (tgt : List AggTarget) : List (List (String × ℚ)) :=
  tgt.filterMap (fun i => match i with | .mix l => some l | .str _ => none)

/-- All keys of the coupled sets (line 669). -/
def cc_coupled_components (tgt : List AggTarget) : List String :=
  (cc_coupled_sets tgt).foldr (fun s acc => s.map (·.1) ++ acc) []

/-- `present_comp` (lines 671-673): compositional columns of the frame plus
every coupled-set key. -/
def cc_present_comp (env : ChemEnv) (df : Df) (tgt : List AggTarget) : List String :=
  (colNames df).filter env.isCompositional ++ cc_coupled_components tgt

/-- `noncomp` (line 674): the remaining columns. -/
def cc_noncomp (env : ChemEnv) (df : Df) (tgt : List AggTarget) : List String :=
  (colNames df).filter (fun c => !((cc_present_comp env df tgt).contains c))

/-- `new_ratios` (line 675): requested ratio strings not already columns. -/
def cc_new_ratios (df : Df) (tgt : List AggTarget) : List String :=
  tgt.filterMap (fun i => match i with
    | .str s => if strContains s "/" && !(hasCol df s) then some s else none
    | .mix _ => none)

/-- `get_comp` (line 676): plain requested names that are neither coupled
sets, non-compositional columns, nor ratio strings. -/
def cc_get_comp (env : ChemEnv) (df : Df) (tgt : List AggTarget) : List String :=
  tgt.filterMap (fun i => match i with
    | .str s =>
      if !((cc_noncomp env df tgt).contains s) && !((cc_new_ratios df tgt).contains s)
      then some s else none
    | .mix _ => none)

/-- `agg_present` after the iron set-subtraction (lines 677-686): requested
names already present, minus the iron-related ones; the Python `set()`
difference is modelled by order-preserving dedup and filter (every
`agg_present` member containing "Fe" lies in `current_fe`). -/
def cc_agg_present (env : ChemEnv) (df : Df) (tgt : List AggTarget) : List String :=
  (((cc_get_comp env df tgt).filter
      (fun i => (cc_present_comp env df tgt).contains i)).filter
    (fun i => !(strContains i "Fe"))).eraseDups

/-- The not-yet-present iron names `get_fe` (line 684), kept in request
order. -/
def cc_get_fe_names (env : ChemEnv) (df : Df) (tgt : List AggTarget) : List String :=
  ((cc_get_comp env df tgt).filter
      (fun i => !((cc_present_comp env df tgt).contains i))).filter
    (fun i => strContains i "Fe")

/-- `get_notpresent` after the iron set-subtraction (lines 677-687). -/
def cc_get_notpresent (env : ChemEnv) (df : Df) (tgt : List AggTarget) : List String :=
  (((cc_get_comp env df tgt).filter
      (fun i => !((cc_present_comp env df tgt).contains i))).filter
    (fun i => !(strContains i "Fe"))).eraseDups

/-- The preliminary per-column aggregation loop (lines 690-691). -/
def cc_agg_phase (env : ChemEnv) (df : Df) (tgt : List AggTarget)
    (molecular : Bool) : Except String Df :=
  (cc_agg_present env df tgt ++ cc_get_notpresent env df tgt).foldlM
    (fun d item => (aggregate_element env d (.str item) "T" false molecular).map (·.1)) df

/-- The coupled sets whose keys are all iron-related (line 698); note an empty
mapping vacuously qualifies, as in the source's `all(...)`. -/
def cc_coupled_fe (tgt : List AggTarget) : List (List (String × ℚ)) :=
  (cc_coupled_sets tgt).filter (fun s => s.all (fun k => strContains k.1 "Fe"))

/-- The effective iron speciation targets (lines 698-700): the coupled iron
sets when any exist, otherwise the not-yet-present iron names. -/
def cc_effective_fe (env : ChemEnv) (df : Df) (tgt : List AggTarget) : List AggTarget :=
  if (cc_coupled_fe tgt).isEmpty then (cc_get_fe_names env df tgt).map .str
  else (cc_coupled_fe tgt).map .mix

/-- Select `df.loc[:, ns]` in order; `none` on a missing column (KeyError). -/
def selectCols (df : Df) (ns : List String) : Option Df :=
  ns.mapM (fun n => (col? df n).map (fun xs => (n, xs)))

/-- Write the columns of `sub` over the equally-named columns of `df`
(`df.loc[:, present_comp] = renormalise(...)`, line 726). -/
def writeBack (df sub : Df) : Df :=
  df.map (fun c => match col? sub c.1 with
    | some xs => (c.1, xs)
    | none => c)

/-- `remaining` (line 720): requested names still missing after all stages. -/
def cc_remaining (env : ChemEnv) (input_df : Df) (tgt : List AggTarget)
    (df3 : Df) : List String :=
  (cc_get_comp env input_df tgt).filter (fun i => !(hasCol df3 i))

/-- `output_columns` (line 722): original non-compositional columns, requested
names, coupled-set keys and ratio names, in that order. -/
def cc_output_columns (env : ChemEnv) (input_df : Df) (tgt : List AggTarget) :
    List String :=
  cc_noncomp env input_df tgt ++ cc_get_comp env input_df tgt
    ++ cc_coupled_components tgt ++ cc_new_ratios input_df tgt

/-- The optional compositional-only renormalisation of lines 724-727. -/
def cc_renormed (env : ChemEnv) (renorm : Bool) (df3 : Df) : Df :=
  if renorm then
    writeBack df3 (renormalise (df3.filter (fun c => env.isCompositional c.1)))
  else df3

/-- The stages of `convert_chemistry` after the iron-redox section (lines
712-730): ratio appending, the attainment assertion (whose message lists the
missing names), compositional-only renormalisation, and output selection.
`df2` is the working frame after aggregation and iron recalculation. -/
def convert_chemistry_rest (env : ChemEnv) (input_df : Df) (tgt : List AggTarget)
    (renorm molecular : Bool) (df2 : Df) : Except String (Df × Df) :=
  match (cc_new_ratios input_df tgt).foldlM
      (fun d r => (add_ratio_fn env d r none none molecular).map (·.1)) df2 with
  | .error e => .error e
  | .ok df3 =>
    if (cc_remaining env input_df tgt df3).isEmpty then
      match selectCols (cc_renormed env renorm df3)
          (cc_output_columns env input_df tgt) with
      | some out => .ok (out, input_df)
      | none => .error "KeyError: missing output column"
    else .error ("Columns not attained: "
      ++ String.intercalate ", " (cc_remaining env input_df tgt df3))

/-- `convert_chemistry(input_df, to, logdata=False, renorm, molecular)`
(`transform.py` lines 625-730): copy the input, aggregate the attainable
plain targets, resolve the (at most one) iron speciation target, append the
requested ratios, assert every requested column now exists, then select the
output columns (renormalising only the compositional ones when asked).
Returns `(returned frame, caller frame after)`; `df = input_df.copy()` at
line 657 keeps the caller's frame untouched. -/
def convert_chemistry (env : ChemEnv) (input_df : Df) (tgt : List AggTarget)
    (renorm molecular : Bool) : Except String (Df × Df) :=
  match cc_agg_phase env input_df tgt molecular with
  | .error e => .error e
  | .ok df1 =>
    match cc_effective_fe env input_df tgt with
    | [] => convert_chemistry_rest env input_df tgt renorm molecular df1
    | [t] =>
      match recalculate_Fe env df1 t "T" false molecular with
      | .error e => .error e
      | .ok p => convert_chemistry_rest env input_df tgt renorm molecular p.1
    | _ :: _ :: _ => .error "Need to specify speciation for >1 Fe components."

/-! ### A concrete instance of the external lookups, for evaluation

Masses are exact integer stand-ins for the `periodictable` molecular weights
(Mg 24, O 16, Fe 56, Ti 48, Yb 173); the algebraic claims hold for any
masses, so the witnesses only need a consistent assignment. -/

/-- A small concrete Formula/Mass Resolver. -/
def cformula : String → Option Formula
  | "Mg" => some ⟨[("Mg", 1)], 24⟩
  | "MgO" => some ⟨[("Mg", 1), ("O", 1)], 40⟩
  | "Fe" => some ⟨[("Fe", 1)], 56⟩
  | "FeO" => some ⟨[("Fe", 1), ("O", 1)], 72⟩
  | "Fe2O3" => some ⟨[("Fe", 2), ("O", 3)], 160⟩
  | "Ti" => some ⟨[("Ti", 1)], 48⟩
  | "Yb" => some ⟨[("Yb", 1)], 173⟩
  | _ => none

/-- A concrete environment instantiating the external lookups of spec §6. -/
def cenv : ChemEnv where
  formula := cformula
  simple_oxides := fun c =>
    if c == "Mg" then ["MgO"] else if c == "Fe" then ["FeO", "Fe2O3"] else []
  isCompositional := fun s => ["Mg", "MgO", "Fe", "FeO", "Fe2O3", "Ti", "Yb"].contains s
  titlecase := fun s => if s == "yb" then "Yb" else s

/-- One-row frame with a single ferrous-iron column (C1 witness). -/
def cdfC1 : Df := [("FeO", [some 9])]

/-- One-row frame with titanium and ytterbium columns (C2 failing input). -/
def cdfC2 : Df := [("Ti", [some 6]), ("Yb", [some 3])]

/-- Two-row frame exercising negative, zero and NaN cells (C3 witness). -/
def cdfC3 : Df := [("FeO", [some 9, some (-1)]), ("Fe2O3", [some 0, none])]

/-- Two-column positive frame (C4 witness). -/
def cdfC4 : Df := [("Mg", [some 3]), ("FeO", [some 5])]

/-- Frame with a compositional and a non-compositional column (C8). -/
def cdfC8 : Df := [("MgO", [some 40]), ("ID", [some 10])]

/-- Frame for the convert_chemistry counterexample (C9). -/
def cdfC9 : Df := [("MgO", [some 1])]

/-- Request mixing one coupled iron set with two not-yet-present iron names. -/
def ctgtC9 : List AggTarget :=
  [.mix [("FeO", 1/2), ("Fe2O3", 1/2)], .str "FeOT", .str "Fe"]

/-- Request with two coupled iron sets (C9 witness). -/
def ctgtC9w : List AggTarget := [.mix [("FeO", 1)], .mix [("Fe2O3", 1)]]

/-- Frame for the add_ratio mutation counterexample (C10). -/
def cdfC10 : Df := [("Mg", [some 4]), ("Fe", [some 2])]

/-- Frame where aggregation drops a redundant column (C10 witness). -/
def cdfC10e : Df := [("FeO", [some 9]), ("Fe2O3", [some 8])]

/-- Two-row REE frame whose second row is all-null (C6 / C7). -/
def cdfC6 : Df := [("La", [some 1, none]), ("Lu", [some 2, none])]

/-- The frame returned by `aggregate_element` on `cdfC1` with the 50/50
FeO/Fe2O3 speciation (C1 witness). -/
def cretC1 : Df := [("FeO", [some (9 / 2)]), ("Fe2O3", [some 5])]

/-! ### Helper lemmas -/

theorem getD_map_of_lt {α β : Type} (f : α → β) (l : List α) (i : ℕ)
    (hi : i < l.length) (d : β) (d' : α) :
    (l.map f).getD i d = f (l.getD i d') := by
  induction l generalizing i with
  | nil => simp at hi
  | cons x rest ih =>
    cases i with
    | zero => rfl
    | succ n => exact ih n (by simpa using hi)

theorem getD_range_map {β : Type} (g : ℕ → β) (n i : ℕ) (hi : i < n) (d : β) :
    ((List.range n).map g).getD i d = g i := by
  rw [getD_map_of_lt g _ i (by simpa using hi) d 0]
  congr 1
  rw [List.getD_eq_getElem?_getD, List.getElem?_range hi, Option.getD_some]

theorem col?_replaceCol_self (d : Df) (n : String) (xs : List Val)
    (h : hasCol d n = true) : col? (replaceCol n xs d) n = some xs := by
  induction d with
  | nil => simp [hasCol] at h
  | cons c rest ih =>
    by_cases h1 : c.1 = n
    · simp [replaceCol, col?, h1]
    · have hr : hasCol rest n = true := by
        unfold hasCol at h ⊢
        rcases List.any_eq_true.mp h with ⟨x, hx, hpx⟩
        rcases List.mem_cons.mp hx with he | hm
        · cases he
          exact absurd (by simpa using hpx) h1
        · exact List.any_eq_true.mpr ⟨x, hm, hpx⟩
      have hrec := ih hr
      unfold col? at hrec ⊢
      simpa [replaceCol, h1] using hrec

theorem col?_replaceCol_ne (d : Df) (n m : String) (xs : List Val)
    (h : ¬ m = n) : col? (replaceCol n xs d) m = col? d m := by
  induction d with
  | nil => rfl
  | cons c rest ih =>
    have h3 : ¬ ((n : String) = m) := fun hh => h hh.symm
    by_cases h1 : c.1 = n
    · have h4 : ¬ (c.1 = m) := by rw [h1]; exact h3
      unfold col? at ih ⊢
      simpa [replaceCol, h1, h3, h4] using ih
    · by_cases h4 : c.1 = m
      · simp [replaceCol, col?, h1, h4, h]
      · unfold col? at ih ⊢
        simpa [replaceCol, h1, h4] using ih

theorem col?_setCol_self (d : Df) (n : String) (xs : List Val) :
    col? (setCol d n xs) n = some xs := by
  unfold setCol
  by_cases h : hasCol d n = true
  · rw [if_pos h]
    exact col?_replaceCol_self d n xs h
  · rw [if_neg h]
    have hnone : d.find? (fun c => c.1 == n) = none := by
      rw [List.find?_eq_none]
      intro x hx hpx
      exact h (by unfold hasCol; exact List.any_eq_true.mpr ⟨x, hx, hpx⟩)
    unfold col?
    rw [List.find?_append, hnone]
    simp

theorem col?_setCol_ne (d : Df) (n m : String) (xs : List Val) (h : ¬ m = n) :
    col? (setCol d n xs) m = col? d m := by
  unfold setCol
  by_cases hc : hasCol d n = true
  · rw [if_pos hc]
    exact col?_replaceCol_ne d n m xs h
  · rw [if_neg hc]
    unfold col?
    rw [List.find?_append]
    have h2 : ¬ ((n : String) = m) := fun hh => h hh.symm
    have hsing : List.find? (fun c => c.1 == m) [(n, xs)] = none := by
      simp [h2]
    rw [hsing]
    simp

theorem es_subsum_length {env : ChemEnv} {df : Df} {cation ts : String}
    {mol : Bool} {out : List Val}
    (h : es_subsum env df cation ts mol = .ok out) : out.length = nrows df := by
  unfold es_subsum at h
  split at h
  · cases h; simp
  · split at h
    · simp at h
    · cases h; simp

theorem elemental_sum_length {env : ChemEnv} {df : Df} {comp : EsComponent}
    {tgt : Option String} {ts : String} {mol : Bool} {c : String} {out : List Val}
    (h : elemental_sum env df comp tgt ts mol = .ok (c, out)) :
    out.length = nrows df := by
  unfold elemental_sum at h
  split at h
  · simp at h
  · split at h
    · simp at h
    · split at h
      · cases h
        exact es_subsum_length (by assumption)
      · split at h
        · simp at h
        · cases h
          rw [List.length_map]
          exact es_subsum_length (by assumption)

theorem oxide_conversion_eq {env : ChemEnv} {A B : String} (mol : Bool)
    {fA fB : Formula} {e : String} {a b : ℕ}
    (hfA : env.formula A = some fA) (hfB : env.formula B = some fB)
    (haA : nonO fA = [(e, a)]) (haB : nonO fB = [(e, b)]) :
    oxide_conversion env A B mol =
      .ok (if mol then (a : ℚ) / b else (a : ℚ) / b * fB.mass / fA.mass) := by
  unfold oxide_conversion
  rw [hfA, hfB]
  simp [haA, haB]

theorem factor_mul_inverse (mol : Bool) (a b : ℕ) (mA mB : ℚ)
    (ha : a ≠ 0) (hb : b ≠ 0) (hmA : mA ≠ 0) (hmB : mB ≠ 0) :
    (if mol then (a : ℚ) / b else (a : ℚ) / b * mB / mA)
      * (if mol then (b : ℚ) / a else (b : ℚ) / a * mA / mB) = 1 := by
  have ha' : (a : ℚ) ≠ 0 := Nat.cast_ne_zero.mpr ha
  have hb' : (b : ℚ) ≠ 0 := Nat.cast_ne_zero.mpr hb
  cases mol <;> simp only [if_true, if_false, Bool.false_eq_true] <;> field_simp

theorem foldl_add_eq_sum {α : Type} (g : α → ℚ) (l : List α) (acc : ℚ) :
    l.foldl (fun acc x => acc + g x) acc = acc + (l.map g).sum := by
  induction l generalizing acc with
  | nil => simp
  | cons x rest ih => simp [ih, add_assoc]

theorem roundtrip_col (m : ℚ) (hm : m ≠ 0) (xs : List Val) :
    (xs.map (fun v => v.map (fun q => q / m))).map (fun v => v.map (fun q => q * m))
      = xs := by
  induction xs with
  | nil => rfl
  | cons v rest ih =>
    simp only [List.map_cons, ih]
    congr 1
    cases v with
    | none => rfl
    | some q => simp [div_mul_cancel₀ _ hm]

theorem mapColsMW_roundtrip (env : ChemEnv) :
    ∀ (df out : Df), (∀ c ∈ df, ∀ f, env.formula c.1 = some f → f.mass ≠ 0) →
      mapColsMW env (fun q m => q / m) df = .ok out →
      mapColsMW env (fun q m => q * m) out = .ok df := by
  intro df
  induction df with
  | nil =>
    intro out _ h
    unfold mapColsMW at h ⊢
    cases h
    rfl
  | cons c rest ih =>
    intro out hm h
    unfold mapColsMW at h
    cases hf : env.formula c.1 with
    | none => rw [hf] at h; simp at h
    | some f =>
      rw [hf] at h
      cases hr : mapColsMW env (fun q m => q / m) rest with
      | error e => rw [hr] at h; simp at h
      | ok out2 =>
        rw [hr] at h
        cases h
        unfold mapColsMW
        rw [hf, ih out2 (fun d hd => hm d (List.mem_cons_of_mem _ hd)) hr]
        simp [roundtrip_col f.mass (hm c (List.mem_cons_self _ _) f hf)]

/-- C5: for two chemical forms that resolve to exactly one and the same
non-oxygen element (with nonzero atom counts and masses), and either value of
the `molecular` flag, the factors returned by `oxide_conversion(A, B)` and
`oxide_conversion(B, A)` multiply to exactly 1. -/
theorem oxide_conversion_factors_inverse
    (env : ChemEnv) (A B : String) (mol : Bool) (fA fB : Formula)
    (e : String) (a b : ℕ) (f g : ℚ)
    (hfA : env.formula A = some fA) (hfB : env.formula B = some fB)
    (haA : nonO fA = [(e, a)]) (haB : nonO fB = [(e, b)])
    (ha : a ≠ 0) (hb : b ≠ 0) (hmA : fA.mass ≠ 0) (hmB : fB.mass ≠ 0)
    (hf : oxide_conversion env A B mol = .ok f)
    (hg : oxide_conversion env B A mol = .ok g) :
    f * g = 1 := by
  rw [oxide_conversion_eq mol hfA hfB haA haB] at hf
  rw [oxide_conversion_eq mol hfB hfA haB haA] at hg
  cases hf
  cases hg
  exact factor_mul_inverse mol a b fA.mass fB.mass ha hb hmA hmB

/-- Witness for C5 at `A = "FeO"`, `B = "Fe2O3"` in the concrete
environment. -/
theorem oxide_conversion_factors_inverse_witness : (10 / 9 : ℚ) * (9 / 10) = 1 :=
  oxide_conversion_factors_inverse cenv "FeO" "Fe2O3" false
    ⟨[("Fe", 1), ("O", 1)], 72⟩ ⟨[("Fe", 2), ("O", 3)], 160⟩ "Fe" 1 2
    (10 / 9) (9 / 10) rfl rfl rfl rfl
    (by decide) (by decide) (by norm_num) (by norm_num)
    (by with_unfolding_all decide) (by with_unfolding_all decide)

/-- C4: on a frame whose column names all resolve to nonzero molecular
weights, `to_weight(to_molecular(X, renorm=False), renorm=False)` returns `X`
exactly. -/
theorem to_weight_to_molecular_roundtrip (env : ChemEnv) (df dfm : Df)
    (hm : ∀ c ∈ df, ∀ f, env.formula c.1 = some f → f.mass ≠ 0)
    (h : to_molecular env df false = .ok dfm) :
    to_weight env dfm false = .ok df := by
  unfold to_molecular at h
  cases hd : mapColsMW env (fun q m => q / m) df with
  | error e => rw [hd] at h; simp at h
  | ok out =>
    rw [hd] at h
    cases h
    show to_weight env out false = Except.ok df
    unfold to_weight
    rw [mapColsMW_roundtrip env df out hm hd]
    rfl

/-- Witness for C4 on the concrete two-column positive frame. -/
theorem to_weight_to_molecular_roundtrip_witness :
    to_weight cenv [("Mg", [some (1 / 8)]), ("FeO", [some (5 / 72)])] false
      = .ok cdfC4 :=
  to_weight_to_molecular_roundtrip cenv cdfC4
    [("Mg", [some (1 / 8)]), ("FeO", [some (5 / 72)])]
    (by with_unfolding_all decide) (by with_unfolding_all decide)

/-- C2 (code bug): with normalisation requested (`_n` suffix and an explicit
two-element reference override (2, 3)), `add_ratio` returns the raw ratio
`Ti/Yb = 6/3 = 2`; the specified value `(6/2)/(3/3) = 3` — numerator and
denominator each divided by their reference values — differs.  The source
resolves the reference values and never applies them. -/
theorem add_ratio_ignores_reference_values :
    add_ratio_fn cenv cdfC2 "Ti/Yb_n" none (some (2, 3)) false =
      .ok ([("Ti", [some 6]), ("Yb", [some 3]), ("Ti/Yb_n", [some 2])],
           [("Ti", [some 6]), ("Yb", [some 3]), ("Ti/Yb_n", [some 2])])
      ∧ ((2 : ℚ) ≠ (6 / 2) / (3 / 3)) := by
  constructor
  · with_unfolding_all decide
  · norm_num

/-- C3: whenever at least one candidate species column is present and all
candidate conversions succeed, `elemental_sum` returns, for every row, the sum
over candidates of the converted value with non-finite and negative entries
replaced by zero, with the whole row masked to null exactly when that sum is
not positive — and every other row is still processed to its positive sum. -/
theorem elemental_sum_zeroes_and_masks
    (env : ChemEnv) (df : Df) (comp : String) (ts : String) (mol : Bool)
    (cation : String) (facs : List (String × ℚ))
    (hc : comp_cation env (.one comp) ts = .ok cation)
    (hne : (es_species env df cation ts).isEmpty = false)
    (hf : mapFactors env cation ts mol (es_species env df cation ts) = .ok facs) :
    elemental_sum env df (.one comp) none ts mol =
      .ok (cation, (List.range (nrows df)).map (fun i =>
        if (facs.map (fun sf =>
            zfix ((getVal df sf.1 i).map (fun q => q * sf.2)))).sum ≤ 0
        then (none : Val)
        else some ((facs.map (fun sf =>
            zfix ((getVal df sf.1 i).map (fun q => q * sf.2)))).sum))) := by
  simp only [elemental_sum, hc, es_subsum, hne, Bool.false_eq_true, if_false, hf,
    foldl_add_eq_sum, zero_add]

/-- Witness for C3 on the concrete frame: row 0 sums `9·(7/9) + 0·(7/10) = 7`;
in row 1 the negative `FeO` value and the NaN `Fe2O3` value are both zeroed,
the row sum `0` is not positive, and the row is masked to null. -/
theorem elemental_sum_zeroes_and_masks_witness :
    elemental_sum cenv cdfC3 (.one "Fe") none "T" false = .ok ("Fe", [some 7, none]) := by
  have h := elemental_sum_zeroes_and_masks cenv cdfC3 "Fe" "T" false "Fe"
    [("FeO", 7 / 9), ("Fe2O3", 7 / 10)] (by with_unfolding_all decide)
    (by with_unfolding_all decide) (by with_unfolding_all decide)
  rw [h]
  with_unfolding_all decide

/-- C1: for a two-target speciation mapping `{A: p, B: 1-p}` with `p ∈ [0,1]`
whose targets share the single cation `c`, the two columns written by
`aggregate_element` convert back (via `oxide_conversion(target, c)`) to
cation-equivalent quantities that sum, row-wise, exactly to the
pre-redistribution `elemental_sum` aggregate. -/
theorem aggregate_redistribution_preserves_elemental_sum
    (env : ChemEnv) (df : Df) (A B c : String) (p : ℚ) (mol : Bool) (ts : String)
    (fA fB fc : Formula) (nA nB nc : ℕ)
    (subsum : List Val) (ret ca : Df) (gA gB : ℚ)
    (hp0 : 0 ≤ p) (hp1 : p ≤ 1) (hAB : ¬ A = B)
    (hfA : env.formula A = some fA) (haA : nonO fA = [(c, nA)])
    (hnA : nA ≠ 0) (hmA : fA.mass ≠ 0)
    (hfB : env.formula B = some fB) (haB : nonO fB = [(c, nB)])
    (hnB : nB ≠ 0) (hmB : fB.mass ≠ 0)
    (hfc : env.formula c = some fc) (hac : nonO fc = [(c, nc)])
    (hnc : nc ≠ 0) (hmc : fc.mass ≠ 0)
    (hsub : elemental_sum env df (.many [A, B]) none ts mol = .ok (c, subsum))
    (hagg : aggregate_element env df (.mix [(A, p), (B, 1 - p)]) ts false mol
      = .ok (ret, ca))
    (hgA : oxide_conversion env A c mol = .ok gA)
    (hgB : oxide_conversion env B c mol = .ok gB) :
    ∀ i, i < nrows df →
      vadd (Option.map (fun q => q * gA) (getVal ret A i))
           (Option.map (fun q => q * gB) (getVal ret B i))
        = subsum.getD i none := by
  intro i hi
  have hsum1 : p + (1 - p) = 1 := by ring
  have hcA : oxide_conversion env c A mol
      = .ok (if mol then (nc : ℚ) / nA else (nc : ℚ) / nA * fA.mass / fc.mass) :=
    oxide_conversion_eq mol hfc hfA hac haA
  have hcB : oxide_conversion env c B mol
      = .ok (if mol then (nc : ℚ) / nB else (nc : ℚ) / nB * fB.mass / fc.mass) :=
    oxide_conversion_eq mol hfc hfB hac haB
  have htgts : aggTargets env c (.mix [(A, p), (B, 1 - p)]) ts mol
      (agg_species env df c ts)
      = .ok ([A, B],
             [(if mol then (nc : ℚ) / nA else (nc : ℚ) / nA * fA.mass / fc.mass) * p,
              (if mol then (nc : ℚ) / nB else (nc : ℚ) / nB * fB.mass / fc.mass)
                * (1 - p)],
             (agg_species env df c ts).filter
               (fun s => !([A, B].contains s))) := by
    simp only [aggTargets, close, List.map_cons, List.map_nil, List.sum_cons,
      List.sum_nil, add_zero, hsum1, div_one, List.zip_cons_cons, List.zip_nil_left,
      mapCoeffs, hcA, hcB]
  have hlen : subsum.length = nrows df := elemental_sum_length hsub
  have hcomp : (AggTarget.mix [(A, p), (B, 1 - p)]).comp = EsComponent.many [A, B] :=
    rfl
  simp only [aggregate_element, hcomp, hsub, htgts, List.map_cons, List.map_nil,
    Bool.false_eq_true, if_false, Except.ok.injEq, Prod.mk.injEq] at hagg
  obtain ⟨hret, hca⟩ := hagg
  rw [← hret]
  have hsplit : ∀ (d : Df) (xA xB : List Val),
      setCols d [A, B] [xA, xB] = setCol (setCol d A xA) B xB := by
    intro d xA xB
    rfl
  rw [hsplit]
  have hgetA : ∀ (d : Df) (xA xB : List Val),
      getVal (setCol (setCol d A xA) B xB) A i = xA.getD i none := by
    intro d xA xB
    unfold getVal
    rw [col?_setCol_ne _ B A xB hAB, col?_setCol_self]
    rfl
  have hgetB : ∀ (d : Df) (xA xB : List Val),
      getVal (setCol (setCol d A xA) B xB) B i = xB.getD i none := by
    intro d xA xB
    unfold getVal
    rw [col?_setCol_self]
    rfl
  rw [hgetA, hgetB]
  have hi2 : i < subsum.length := by rw [hlen]; exact hi
  rw [getD_map_of_lt _ subsum i hi2 none none, getD_map_of_lt _ subsum i hi2 none none]
  have h1 : (if mol then (nc : ℚ) / nA else (nc : ℚ) / nA * fA.mass / fc.mass) * gA
      = 1 := by
    rw [oxide_conversion_eq mol hfA hfc haA hac] at hgA
    cases hgA
    exact factor_mul_inverse mol nc nA fc.mass fA.mass hnc hnA hmc hmA
  have h2 : (if mol then (nc : ℚ) / nB else (nc : ℚ) / nB * fB.mass / fc.mass) * gB
      = 1 := by
    rw [oxide_conversion_eq mol hfB hfc haB hac] at hgB
    cases hgB
    exact factor_mul_inverse mol nc nB fc.mass fB.mass hnc hnB hmc hmB
  cases hv : subsum.getD i none with
  | none => simp [vadd]
  | some q =>
    simp only [Option.map_some', vadd]
    congr 1
    linear_combination (q * p) * h1 + (q * (1 - p)) * h2

/-- Witness for C1: aggregating the one-row frame `{FeO: 9}` into the 50/50
FeO/Fe2O3 speciation and converting both output columns back to metallic iron
recovers the elemental sum `7` exactly. -/
theorem aggregate_redistribution_preserves_elemental_sum_witness :
    vadd (Option.map (fun q => q * (7 / 9)) (getVal cretC1 "FeO" 0))
         (Option.map (fun q => q * (7 / 10)) (getVal cretC1 "Fe2O3" 0))
      = some 7 := by
  have h := aggregate_redistribution_preserves_elemental_sum cenv cdfC1
    "FeO" "Fe2O3" "Fe" (1 / 2) false "T"
    ⟨[("Fe", 1), ("O", 1)], 72⟩ ⟨[("Fe", 2), ("O", 3)], 160⟩ ⟨[("Fe", 1)], 56⟩
    1 2 1 [some 7] cretC1 cretC1 (7 / 9) (7 / 10)
    (by norm_num) (by norm_num) (by decide)
    rfl rfl (by decide) (by norm_num)
    rfl rfl (by decide) (by norm_num)
    rfl rfl (by decide) (by norm_num)
    (by with_unfolding_all decide) (by with_unfolding_all decide)
    (by with_unfolding_all decide) (by with_unfolding_all decide)
    0 (by decide)
  simpa using h

/-- C8 (amended): `aggregate_element` with `renorm=True` renormalises the
entire returned frame: its result is exactly `renormalise` applied to the
whole `renorm=False` frame, so every column — non-compositional ones
included — is rescaled by the row closure; the caller-frame component is
unaffected by `renorm`. -/
theorem aggregate_element_renorm_renormalises_whole_frame
    (env : ChemEnv) (df : Df) (tgt : AggTarget) (ts : String) (mol : Bool) :
    aggregate_element env df tgt ts true mol
      = (aggregate_element env df tgt ts false mol).map
          (fun q => (renormalise q.1, q.2)) := by
  unfold aggregate_element
  split
  · rfl
  · split
    · rfl
    · rfl

/-- C8 counterexample: on a frame with the compositional column `MgO = 40`
and the non-compositional column `ID = 10`, `aggregate_element(to="MgO",
renorm=True)` returns `ID = 20 ≠ 10` (rows are closed to a total of 100): the
non-compositional column is not left unchanged. -/
theorem aggregate_element_renorm_changes_noncompositional :
    aggregate_element cenv cdfC8 (.str "MgO") "T" true false
      = .ok ([("MgO", [some 80]), ("ID", [some 20])],
             [("MgO", [some 40]), ("ID", [some 10])])
      ∧ cenv.isCompositional "ID" = false
      ∧ getVal cdfC8 "ID" 0 = some 10
      ∧ ¬ ((20 : ℚ) = 10) :=
  ⟨by with_unfolding_all decide, by with_unfolding_all decide,
   by with_unfolding_all decide, by norm_num⟩

/-- C9 (amended): whenever the preliminary aggregation loop succeeds and the
effective iron speciation targets — the coupled iron mappings if any exist,
otherwise the not-yet-present iron component names — number more than one,
`convert_chemistry` fails with the fixed-message `NotImplementedError` (which
does not name the conflicting targets) and returns no frame. -/
theorem convert_chemistry_multiple_iron_targets_error
    (env : ChemEnv) (df : Df) (tgt : List AggTarget) (rn mol : Bool) (d1 : Df)
    (h1 : cc_agg_phase env df tgt mol = .ok d1)
    (h2 : 2 ≤ (cc_effective_fe env df tgt).length) :
    convert_chemistry env df tgt rn mol
      = .error "Need to specify speciation for >1 Fe components." := by
  unfold convert_chemistry
  rw [h1]
  cases hfe : cc_effective_fe env df tgt with
  | nil => rw [hfe] at h2; simp at h2
  | cons a l =>
    cases l with
    | nil => rw [hfe] at h2; simp at h2
    | cons b l2 => rfl

/-- Witness for C9: two coupled iron mappings produce the fixed
not-implemented error. -/
theorem convert_chemistry_multiple_iron_targets_error_witness :
    convert_chemistry cenv cdfC9 ctgtC9w false false
      = .error "Need to specify speciation for >1 Fe components." :=
  convert_chemistry_multiple_iron_targets_error cenv cdfC9 ctgtC9w false false
    cdfC9 (by with_unfolding_all decide) (by with_unfolding_all decide)

/-- C9 counterexample: with one coupled iron mapping and two not-yet-present
iron component names (`FeOT`, `Fe`), the claim's condition "two or more
not-yet-present iron component names" holds, yet the call does not fail with
the multiple-iron-target error: it fails later with the unattainable-output
assertion (a different error that, unlike the claim says, is also the only
place the conflicting names appear). -/
theorem convert_chemistry_mixed_iron_targets_other_error :
    2 ≤ (cc_get_fe_names cenv cdfC9 ctgtC9).length
      ∧ convert_chemistry cenv cdfC9 ctgtC9 false false
        = .error "Columns not attained: FeOT, Fe" :=
  ⟨by with_unfolding_all decide, by with_unfolding_all decide⟩

theorem getD_out_of_range {β : Type} (l : List β) (i : ℕ) (d : β)
    (h : l.length ≤ i) : l.getD i d = d := by
  rw [List.getD_eq_getElem?_getD, List.getElem?_eq_none h, Option.getD_none]

/-- Every column of the lambda frame (before the final numeric coercion) is a
row-indexed generator over `nrows df` rows whose cells coerce to NaN on every
row that was masked out for a null REE value. -/
theorem ll_lam2_mem {df : Df} {exclude : List String} {degree : ℕ}
    {norm_to : Option (List ℚ)} {ln : ℚ → ℚ} {fitρ : List Val → List Val}
    {appendFn : Bool} {lpfρ : List LCell → ℚ → ℚ} {c : String × List LCell}
    (hc : c ∈ ll_lam2 df exclude degree norm_to ln fitρ appendFn lpfρ) :
    ∃ g : ℕ → LCell, c.2 = (List.range (nrows df)).map g ∧
      ∀ i, ll_nullInRow df exclude i = true → coerceNum (g i) = LCell.nan := by
  have hlam1 : ∀ c2 ∈ ll_lam1 df exclude degree norm_to ln fitρ,
      ∃ g : ℕ → LCell, c2.2 = (List.range (nrows df)).map g ∧
        ∀ i, ll_nullInRow df exclude i = true → coerceNum (g i) = LCell.nan := by
    intro c2 hc2
    unfold ll_lam1 at hc2
    rcases List.mem_map.mp hc2 with ⟨c0, hc0, rfl⟩
    refine ⟨_, rfl, ?_⟩
    intro i hnull
    unfold ll_lam0 at hc0
    rcases List.mem_map.mp hc0 with ⟨k, _, rfl⟩
    by_cases hz : ll_zeroRow df exclude degree norm_to ln fitρ i = true
    · simp [hz, coerceNum]
    · simp only [hz, Bool.false_eq_true, if_false]
      by_cases hi : i < nrows df
      · rw [getD_range_map _ _ _ hi, hnull]
        simp [coerceNum]
      · rw [getD_out_of_range]
        · simp [coerceNum]
        · simp [Nat.le_of_not_lt hi]
  unfold ll_lam2 at hc
  by_cases ha : appendFn = true
  · rw [if_pos ha] at hc
    rcases List.mem_append.mp hc with h1 | h1
    · exact hlam1 c h1
    · rcases List.mem_singleton.mp h1 with rfl
      refine ⟨_, rfl, ?_⟩
      intro i _
      simp [coerceNum]
  · rw [if_neg ha] at hc
    exact hlam1 c hc

/-- C6: the lambda frame has exactly as many rows as the input in every
column, and any row all of whose selected REE values are null (with at least
one selected REE) yields null in every coefficient column. -/
theorem lambda_lnREE_rowcount_and_null_rows
    (df : Df) (exclude : List String) (degree : ℕ) (norm_to : Option (List ℚ))
    (ln : ℚ → ℚ) (fitρ : List Val → List Val) (appendFn : Bool)
    (lpfρ : List LCell → ℚ → ℚ) (lf : Lf) (ca : Df)
    (h : lambda_lnREE df exclude degree norm_to ln fitρ appendFn lpfρ
      = .ok (lf, ca)) :
    (∀ c ∈ lf, c.2.length = nrows df)
    ∧ (∀ i, i < nrows df →
        (∃ e, e ∈ selected_REE df exclude) →
        (∀ e ∈ selected_REE df exclude, getVal df e i = none) →
        ∀ c ∈ lf, c.1 ∈ lambda_labels degree →
          c.2.getD i LCell.nan = LCell.nan) := by
  have hlf : lf = (ll_lam2 df exclude degree norm_to ln fitρ appendFn lpfρ).map
      (fun c => (c.1, c.2.map coerceNum)) := by
    unfold lambda_lnREE at h
    split at h
    · simp at h
    · cases h
      rfl
  subst hlf
  constructor
  · intro c hc
    rcases List.mem_map.mp hc with ⟨c2, hc2, rfl⟩
    rcases ll_lam2_mem hc2 with ⟨g, hg, _⟩
    simp [hg]
  · intro i hi hex hnull c hc _
    rcases List.mem_map.mp hc with ⟨c2, hc2, rfl⟩
    rcases ll_lam2_mem hc2 with ⟨g, hg, hgn⟩
    have hnullrow : ll_nullInRow df exclude i = true := by
      rcases hex with ⟨e, he⟩
      unfold ll_nullInRow
      refine List.any_eq_true.mpr ⟨e, he, ?_⟩
      rw [hnull e he]
      rfl
    show (c2.2.map coerceNum).getD i LCell.nan = LCell.nan
    rw [hg, List.map_map]
    rw [getD_range_map _ _ _ hi]
    exact hgn i hnullrow

/-- Witness for C6: applying the theorem to the concrete two-row REE frame
whose second row is all-null shows the coefficient column holds NaN there. -/
theorem lambda_lnREE_rowcount_and_null_rows_witness :
    [LCell.num 5, LCell.nan].getD 1 LCell.nan = LCell.nan ∧
    [LCell.num 5, LCell.nan].length = nrows cdfC6 := by
  have h := lambda_lnREE_rowcount_and_null_rows cdfC6 [] 1 none
    (fun q => q) (fun _ => [some 5]) false (fun _ _ => 0)
    [("λ0", [LCell.num 5, LCell.nan])] cdfC6 (by with_unfolding_all rfl)
  constructor
  · exact h.2 1 (by decide) ⟨"La", by with_unfolding_all decide⟩
      (by with_unfolding_all decide) ("λ0", [LCell.num 5, LCell.nan])
      (List.mem_singleton.mpr rfl) (by with_unfolding_all decide)
  · exact h.1 ("λ0", [LCell.num 5, LCell.nan]) (List.mem_singleton.mpr rfl)

/-- C7 (code bug): with `"function"` requested in `append`, the returned
frame's extra `lambda_poly_func` column holds NaN in every row, not a
callable: the blanket `pd.to_numeric(errors="coerce")` of line 620 nulls the
callables appended at line 616 before the frame is returned. -/
theorem lambda_lnREE_function_column_coerced_to_null :
    lambda_lnREE cdfC6 [] 1 none (fun q => q) (fun _ => [some 5]) true
        (fun _ _ => 0)
      = .ok ([("λ0", [LCell.num 5, LCell.nan]),
              ("lambda_poly_func", [LCell.nan, LCell.nan])], cdfC6)
      ∧ isNanCell (getLCell [("λ0", [LCell.num 5, LCell.nan]),
          ("lambda_poly_func", [LCell.nan, LCell.nan])] "lambda_poly_func" 0)
        = true := by
  constructor
  · with_unfolding_all rfl
  · rfl

/-- C10 (amended): the mutation profile of the five core operations.
`convert_chemistry` and `lambda_lnREE` leave the caller's input frame
unchanged; `add_ratio` and `add_MgNo` write their new column into the
caller's frame in place (the caller-visible frame after the call IS the
returned frame); `aggregate_element` leaves the caller's frame untouched when
redundant source columns are dropped, and otherwise writes the target columns
into the caller's frame in place (so that, without renormalisation, the
caller-visible frame is the returned frame). -/
theorem core_ops_mutation_profile :
    (∀ (env : ChemEnv) (df : Df) (rstr : String) (al : Option String)
        (nt : Option (ℚ × ℚ)) (mol : Bool) (q : Df × Df),
        add_ratio_fn env df rstr al nt mol = .ok q → q.2 = q.1)
    ∧ (∀ (env : ChemEnv) (df : Df) (mol uta : Bool) (f203 : ℚ) (nm : String)
        (q : Df × Df),
        add_MgNo env df mol uta f203 nm = .ok q → q.2 = q.1)
    ∧ (∀ (env : ChemEnv) (df : Df) (tgt : List AggTarget) (rn mol : Bool)
        (q : Df × Df),
        convert_chemistry env df tgt rn mol = .ok q → q.2 = df)
    ∧ (∀ (df : Df) (ex : List String) (dg : ℕ) (nt : Option (List ℚ))
        (ln : ℚ → ℚ) (fitρ : List Val → List Val) (ap : Bool)
        (lpfρ : List LCell → ℚ → ℚ) (q : Lf × Df),
        lambda_lnREE df ex dg nt ln fitρ ap lpfρ = .ok q → q.2 = df)
    ∧ (∀ (env : ChemEnv) (df : Df) (tgt : AggTarget) (ts : String)
        (rn mol : Bool) (cation : String) (subsum : List Val)
        (tn : List String) (cfs : List ℚ) (drop : List String) (q : Df × Df),
        elemental_sum env df tgt.comp none ts mol = .ok (cation, subsum) →
        aggTargets env cation tgt ts mol (agg_species env df cation ts)
          = .ok (tn, cfs, drop) →
        aggregate_element env df tgt ts rn mol = .ok q →
        (¬ drop = [] → q.2 = df)
          ∧ (drop = [] → rn = false → q.2 = q.1)) := by
  refine ⟨?_, ?_, ?_, ?_, ?_⟩
  · intro env df rstr al nt mol q h
    unfold add_ratio_fn at h
    repeat' split at h
    all_goals first
      | (cases h; rfl)
      | simp at h
  · intro env df mol uta f203 nm q h
    unfold add_MgNo at h
    repeat' split at h
    all_goals first
      | (cases h; rfl)
      | simp at h
  · intro env df tgt rn mol q h
    unfold convert_chemistry convert_chemistry_rest at h
    repeat' split at h
    all_goals first
      | (cases h; rfl)
      | simp at h
  · intro df ex dg nt ln fitρ ap lpfρ q h
    unfold lambda_lnREE at h
    repeat' split at h
    all_goals first
      | (cases h; rfl)
      | simp at h
  · intro env df tgt ts rn mol cation subsum tn cfs drop q hES hT h
    simp only [aggregate_element, hES, hT] at h
    constructor
    · intro hd
      have hde : drop.isEmpty = false := by
        cases drop with
        | nil => exact absurd rfl hd
        | cons a l => rfl
      rw [hde] at h
      simp only [Bool.false_eq_true, if_false] at h
      cases rn with
      | false => simp only [Bool.false_eq_true, if_false] at h; cases h; rfl
      | true => simp only [if_true] at h; cases h; rfl
    · intro hd hrn
      subst hrn
      subst hd
      simp only [List.isEmpty_nil, if_true, Bool.false_eq_true, if_false] at h
      cases h
      rfl

/-- Witness for C10: the aggregation of `{FeO: 9, Fe2O3: 8}` to `"FeO"` drops
the redundant `Fe2O3` source column in the returned frame, while the
caller-visible input frame keeps both original columns. -/
theorem core_ops_mutation_profile_witness :
    (([("FeO", [some (81 / 5)])], cdfC10e) : Df × Df).2 = cdfC10e :=
  (core_ops_mutation_profile.2.2.2.2 cenv cdfC10e (.str "FeO") "T" false false
      "Fe" [some (63 / 5)] ["FeO"] [9 / 7 * 1] ["Fe2O3"]
      ([("FeO", [some (81 / 5)])], cdfC10e)
      (by with_unfolding_all decide) (by with_unfolding_all decide)
      (by with_unfolding_all decide)).1 (by decide)

/-- C10 counterexample: `add_ratio` writes the `Mg/Fe` column into the
caller's frame in place — after the call the caller-visible input frame has
gained the ratio column, so the input frame is not left unchanged. -/
theorem add_ratio_mutates_input_frame :
    add_ratio_fn cenv cdfC10 "Mg/Fe" none none false
      = .ok ([("Mg", [some 4]), ("Fe", [some 2]), ("Mg/Fe", [some 2])],
             [("Mg", [some 4]), ("Fe", [some 2]), ("Mg/Fe", [some 2])])
      ∧ ¬ (([("Mg", [some 4]), ("Fe", [some 2]), ("Mg/Fe", [some 2])] : Df)
            = cdfC10) :=
  ⟨by with_unfolding_all decide, by with_unfolding_all decide⟩

end Pyrolite
